import Mathlib

/-!
Verification development for the rule-evaluation core of the
`pkg/security/secl/rules` package (file `ruleset.go`).

The embedding is shallow: Go slices become `List`s, Go maps become
association lists (`List (String × α)`) whose iteration order stands in
for the map's unspecified iteration order, Go `(T, error)` returns
become `Except`/`Option` values, and in-place mutation of the `RuleSet`
becomes explicit state passing.  The external evaluator binding
(package `eval`, out of scope of the spec) is represented by opaque
data carried inside each compiled rule: its referenced event types and
fields, its full-evaluation and partial-evaluation functions, and the
result of `GenPartials`.  Listener fan-out is represented by the trace
of notifications a call issues (one entry per `NotifyRuleMatch` /
`NotifyDiscarderFound` call); the context pool and the logger have no
observable effect on results and are elided.
-/

namespace DDRules

deriving instance DecidableEq for Except

/-- Association-list lookup, modelling read access `m[k]` of a Go map. -/
def lookupA {α : Type} : List (String × α) → String → Option α
  | [], _ => none
  | (k, v) :: rest, key => if k = key then some v else lookupA rest key

/-- Association-list update, modelling assignment `m[k] = v` of a Go map:
the binding for `k` is replaced in place when present, appended otherwise. -/
def updateA {α : Type} : List (String × α) → String → α → List (String × α)
  | [], key, v => [(key, v)]
  | (k, w) :: rest, key, v =>
    if k = key then (key, v) :: rest else (k, w) :: updateA rest key v

/-- The field-union loop shared by `RuleSet.AddFields` and the bucket field
union: each new field is appended at the end unless an exact string match is
already present. -/
def firstOccur : List String → List String → List String
  | acc, [] => acc
  | acc, f :: rest =>
    if f ∈ acc then firstOccur acc rest else firstOccur (acc ++ [f]) rest

/-- Errors of the rules package.  External errors (from the evaluator
binding or the event object) are carried as strings; `errors.Wrap` becomes
the `wrapped` constructor; `ErrRuleLoad` / `ErrMacroLoad` wrap the failing
definition's ID. -/
inductive RSError where
  | internalIDConflict
  | definitionIDConflict
  | ruleWithoutEvent
  | ruleWithMultipleEvents
  | eventTypeNotEnabled
  | noEventTypeBucket (eventType : String)
  | external (msg : String)
  | wrapped (msg : String) (err : RSError)
  | ruleLoad (ruleID : String) (err : RSError)
  | macroLoad (macroID : String) (err : RSError)
deriving DecidableEq, Repr

/-- An event, as consumed by the rule set: `GetType()` and
`GetFieldEventType(field)`.  The data a rule's evaluator inspects is
reached through the evaluator's own functions. -/
structure Event where
  type : String
  fieldEventType : String → Except String String

/-- The compiled evaluator of one rule, produced by the external
`GenEvaluator` step: referenced event types (`EventTypes`), referenced
fields (`GetFields`), full evaluation (`Eval`), field-pinned partial
evaluation (`PartialEval`), the outcome of `GenPartials`, and the outcome
of `GetEventTypes` (which may fail). -/
structure Evaluator where
  eventTypes : List String
  fields : List String
  eval : Event → Bool
  partialEval : Event → String → Except String Bool
  genPartials : Except String Unit
  getEventTypes : Except String (List String)

/-- RuleDefinition from `ruleset.go` (the `Policy` back-pointer, unused by
the verified operations, is elided). -/
structure RuleDefinition where
  id : String
  version : String
  expression : String
  description : String
  tags : List (String × String)

/-- MacroDefinition from `ruleset.go`. -/
structure MacroDefinition where
  id : String
  expression : String

/-- A compiled rule: the `eval.Rule` payload (ID, expression, tags) plus
its evaluator; the `Definition` back-pointer carries no extra observable
data beyond what is already here. -/
structure Rule where
  id : String
  expression : String
  tags : List String
  evaluator : Evaluator

/-- The `eval.Macro` payload registered into the options' macro table. -/
structure MacroEval where
  id : String
  expression : String
deriving DecidableEq, Repr

/-- Modelled from the spec: `RuleBucket` (its file is not part of the
sampled sources) is the per-event-type collection of compiled rules plus
the unioned list of distinct fields these rules reference. -/
structure RuleBucket where
  rules : List Rule
  fields : List String

/-- Modelled from the spec: `RuleBucket.AddRule` inserts the rule into the
bucket and unions the rule's referenced fields into the bucket's field
list (dedup by exact string match, insertion order preserved). -/
def RuleBucket.AddRule (b : RuleBucket) (r : Rule) : RuleBucket :=
  { rules := b.rules ++ [r], fields := firstOccur b.fields r.evaluator.fields }

/-- The empty bucket created on first use (`&RuleBucket{}`). -/
def RuleBucket.empty : RuleBucket := { rules := [], fields := [] }

/-- The external compilation interface consumed by `AddRule` / the macro
add: `Parse()` and `GenEvaluator(model, opts)` of the `eval` package.
`GenEvaluator` receives the current macro table of the options, since
later rules and macros may reference earlier macros. -/
structure Compiler where
  parseRule : String → Except String Unit
  genRuleEvaluator : String → List (String × MacroEval) → Except String Evaluator
  parseMacro : String → Except String Unit
  genMacroEvaluator : String → List (String × MacroEval) → Except String Unit

/-- The rule set.  The fields of `Opts` read by the verified operations
(`Macros`, `SupportedDiscarders`, `ReservedRuleIDs`, `EventTypeEnabled`)
are inlined; Go's nil-able `SupportedDiscarders` map becomes an `Option`,
and the two maps checked only for key presence keep their `Bool` values
to mirror the source exactly. -/
structure RuleSet where
  eventRuleBuckets : List (String × RuleBucket)
  rules : List (String × Rule)
  fields : List String
  macrosOpts : List (String × MacroEval)
  supportedDiscarders : Option (List (String × Bool))
  reservedRuleIDs : List String
  eventTypeEnabled : List (String × Bool)
  loadedPolicies : List (String × String)
  eventCtor : Unit → Event

/-- One notification issued by the rule set: a `NotifyRuleMatch` call or a
`NotifyDiscarderFound` call (each of which fans out synchronously to every
listener). -/
inductive Notification where
  | ruleMatch (ruleID : String)
  | discarderFound (field : String) (eventType : String)
deriving DecidableEq, Repr

/-- ListRuleIDs returns the IDs of the rule table. -/
def RuleSet.ListRuleIDs (rs : RuleSet) : List String :=
  rs.rules.map Prod.fst

/-- GetEventTypes returns all the event types handled by the ruleset
(the keys of the bucket map). -/
def RuleSet.GetEventTypes (rs : RuleSet) : List String :=
  rs.eventRuleBuckets.map Prod.fst

/-- GetRuleEventType from `ruleset.go`: the rule's single event type, or an
error when the evaluator reports none or more than one. -/
def GetRuleEventType (ets : Except String (List String)) : Except RSError String :=
  match ets with
  | .error e => .error (.external e)
  | .ok eventTypes =>
    if eventTypes.length = 0 then .error .ruleWithoutEvent
    else if 1 < eventTypes.length then .error .ruleWithMultipleEvents
    else .ok (eventTypes.headD "")

/-- AddFields merges the provided fields into the ruleset's global field
list. -/
def RuleSet.AddFields (rs : RuleSet) (fs : List String) : RuleSet :=
  { rs with fields := firstOccur rs.fields fs }

/-- The bucket-insertion loop of `AddRule`: for each event type of the
evaluator, fetch (or create) the bucket and add the rule to it. -/
def addToBuckets (r : Rule) :
    List (String × RuleBucket) → List String → List (String × RuleBucket)
  | bs, [] => bs
  | bs, et :: rest =>
    let b := (lookupA bs et).getD RuleBucket.empty
    addToBuckets r (updateA bs et (b.AddRule r)) rest

/-- AddRule from `ruleset.go`, with in-place mutation made explicit: the
returned state equals the input state on every error path (the source
returns before mutating on each of them; the bucket add, modelled from the
spec, does not fail). -/
def RuleSet.AddRule (C : Compiler) (rs : RuleSet) (d : RuleDefinition) :
    RuleSet × Except RSError Rule :=
  if d.id ∈ rs.reservedRuleIDs then
    (rs, .error (.ruleLoad d.id .internalIDConflict))
  else if (lookupA rs.rules d.id).isSome then
    (rs, .error (.ruleLoad d.id .definitionIDConflict))
  else
    match C.parseRule d.expression with
    | .error e => (rs, .error (.ruleLoad d.id (.wrapped "syntax error" (.external e))))
    | .ok _ =>
      match C.genRuleEvaluator d.expression rs.macrosOpts with
      | .error e => (rs, .error (.ruleLoad d.id (.external e)))
      | .ok ev =>
        match GetRuleEventType ev.getEventTypes with
        | .error e => (rs, .error (.ruleLoad d.id e))
        | .ok eventType =>
          if (lookupA rs.eventTypeEnabled "*").isNone
              && (lookupA rs.eventTypeEnabled eventType).isNone then
            (rs, .error (.ruleLoad d.id .eventTypeNotEnabled))
          else
            let rule : Rule :=
              { id := d.id, expression := d.expression,
                tags := d.tags.map (fun kv => kv.1 ++ ":" ++ kv.2),
                evaluator := ev }
            let rs1 :=
              { rs with
                eventRuleBuckets := addToBuckets rule rs.eventRuleBuckets ev.eventTypes,
                fields := firstOccur rs.fields ev.fields,
                rules := rs.rules ++ [(d.id, rule)] }
            (rs1, .ok rule)

/-- AddMacroDef is `AddMacro` from `ruleset.go` (duplicate check, parse,
compile, register into the options' macro table). -/
def RuleSet.AddMacroDef (C : Compiler) (rs : RuleSet) (d : MacroDefinition) :
    RuleSet × Except RSError MacroEval :=
  if (lookupA rs.macrosOpts d.id).isSome then
    (rs, .error (.macroLoad d.id (.external "multiple definition with the same ID")))
  else
    match C.parseMacro d.expression with
    | .error e => (rs, .error (.macroLoad d.id (.wrapped "syntax error" (.external e))))
    | .ok _ =>
      match C.genMacroEvaluator d.expression rs.macrosOpts with
      | .error e => (rs, .error (.macroLoad d.id (.wrapped "compilation error" (.external e))))
      | .ok _ =>
        let m : MacroEval := { id := d.id, expression := d.expression }
        ({ rs with macrosOpts := rs.macrosOpts ++ [(d.id, m)] }, .ok m)

/-- The loop of `AddMacros`: process every definition, collecting each
individual error. -/
def addMacrosLoop (C : Compiler) :
    RuleSet → List MacroDefinition → RuleSet × List RSError
  | rs, [] => (rs, [])
  | rs, d :: ds =>
    let p := rs.AddMacroDef C d
    let q := addMacrosLoop C p.1 ds
    match p.2 with
    | .ok _ => q
    | .error e => (q.1, e :: q.2)

/-- AddMacros from `ruleset.go`: the combined multi-error is the list of
individual errors in processing order. -/
def RuleSet.AddMacros (C : Compiler) (rs : RuleSet) (ds : List MacroDefinition) :
    RuleSet × List RSError :=
  addMacrosLoop C rs ds

/-- generatePartials from `ruleset.go`: run `GenPartials` on every rule of
every bucket, stopping at the first error. -/
def RuleSet.generatePartials (rs : RuleSet) : Except String Unit :=
  rs.eventRuleBuckets.forM (fun b => b.2.rules.forM (fun r => r.evaluator.genPartials))

/-- The loop of `AddRules`: process every definition, collecting each
individual error. -/
def addRulesLoop (C : Compiler) :
    RuleSet → List RuleDefinition → RuleSet × List RSError
  | rs, [] => (rs, [])
  | rs, d :: ds =>
    let p := rs.AddRule C d
    let q := addRulesLoop C p.1 ds
    match p.2 with
    | .ok _ => q
    | .error e => (q.1, e :: q.2)

/-- AddRules from `ruleset.go`: add every definition, then generate the
partials of every rule, appending a partial-generation failure to the same
combined error. -/
def RuleSet.AddRules (C : Compiler) (rs : RuleSet) (ds : List RuleDefinition) :
    RuleSet × List RSError :=
  let p := addRulesLoop C rs ds
  match p.1.generatePartials with
  | .ok _ => p
  | .error e => (p.1, p.2 ++ [.wrapped "couldn't generate partials for rule" (.external e)])

/-- The rule-matching loop of `Evaluate`: every rule of the bucket is
fully evaluated (no short-circuit); each match issues one `NotifyRuleMatch`
notification and sets the overall result. -/
def matchPhase (ev : Event) : List Rule → Bool × List Notification
  | [] => (false, [])
  | r :: rest =>
    let q := matchPhase ev rest
    if r.evaluator.eval ev then (true, .ruleMatch r.id :: q.2) else q

/-- The inner loop shared by the discarder pass of `Evaluate`: the field is
a discarder only when every rule's partial evaluation is `false` with no
error (any error or `true` blocks discarder status). -/
def ruleAllPartialFalse (ev : Event) (field : String) : List Rule → Bool
  | [] => true
  | r :: rest =>
    match r.evaluator.partialEval ev field with
    | .error _ => false
    | .ok true => false
    | .ok false => ruleAllPartialFalse ev field rest

/-- The supported-discarders gate of `Evaluate`: a field is skipped when a
non-nil allowlist exists and does not contain it. -/
def discarderAllowed (rs : RuleSet) (field : String) : Bool :=
  match rs.supportedDiscarders with
  | some sd => (lookupA sd field).isSome
  | none => true

/-- The discarder loop of `Evaluate`: for every field of the bucket that
passes the allowlist gate and whose partial evaluations are all false, one
`NotifyDiscarderFound` notification is issued. -/
def discarderPhase (rs : RuleSet) (ev : Event) (eventType : String)
    (rules : List Rule) : List String → List Notification
  | [] => []
  | f :: rest =>
    if !discarderAllowed rs f then discarderPhase rs ev eventType rules rest
    else if ruleAllPartialFalse ev f rules then
      .discarderFound f eventType :: discarderPhase rs ev eventType rules rest
    else discarderPhase rs ev eventType rules rest

/-- Evaluate from `ruleset.go`, returning the boolean result together with
the trace of notifications the call issues.  No bucket for the event's
type: `false` with no notification.  Otherwise every rule is evaluated;
when none matched, the discarder pass runs over the bucket's fields. -/
def RuleSet.Evaluate (rs : RuleSet) (ev : Event) : Bool × List Notification :=
  match lookupA rs.eventRuleBuckets ev.type with
  | none => (false, [])
  | some bucket =>
    let p := matchPhase ev bucket.rules
    if p.1 then p
    else (p.1, p.2 ++ discarderPhase rs ev ev.type bucket.rules bucket.fields)

/-- The rule loop of `IsDiscarder`: return on the first rule whose partial
evaluation errors (propagating that error) or is true (with a `none`
error); `(true, none)` when every rule partially evaluates to false. -/
def isDiscarderLoop (ev : Event) (field : String) :
    List Rule → Bool × Option RSError
  | [] => (true, none)
  | r :: rest =>
    match r.evaluator.partialEval ev field with
    | .error e => (false, some (.external e))
    | .ok true => (false, none)
    | .ok false => isDiscarderLoop ev field rest

/-- IsDiscarder from `ruleset.go`: resolve the field's event type, look up
the bucket, then partially evaluate every rule of the bucket against the
field. -/
def RuleSet.IsDiscarder (rs : RuleSet) (ev : Event) (field : String) :
    Bool × Option RSError :=
  match ev.fieldEventType field with
  | .error e => (false, some (.external e))
  | .ok eventType =>
    match lookupA rs.eventRuleBuckets eventType with
    | none => (false, some (.noEventTypeBucket eventType))
    | some bucket => isDiscarderLoop ev field bucket.rules

/-- Field capabilities supplied per event type; their contents are consumed
only by the (external) approver derivation and are opaque here. -/
def FieldCapabilities : Type := List String

/-- Approvers computed for one event type; opaque at this layer. -/
def Approvers : Type := List (String × List String)

/-- Modelled from the spec: `RuleBucket.GetApprovers` (its file is not part
of the sampled sources) delegates the approver derivation to the evaluator
layer, which is out of scope; it is represented by an opaque oracle taking
the bucket, an event template from the event-object factory, and the
supplied capabilities. -/
def ApproverOracle : Type :=
  RuleBucket → Event → FieldCapabilities → Except String Approvers

/-- GetEventApprovers from `ruleset.go`: look up the bucket (missing →
no-bucket error) and ask it to compute approvers given an event template
and the capabilities. -/
def RuleSet.GetEventApprovers (A : ApproverOracle) (rs : RuleSet)
    (eventType : String) (caps : FieldCapabilities) : Except RSError Approvers :=
  match lookupA rs.eventRuleBuckets eventType with
  | none => .error (.noEventTypeBucket eventType)
  | some bucket =>
    match A bucket (rs.eventCtor ()) caps with
    | .error e => .error (.external e)
    | .ok a => .ok a

/-- The event-type loop of `GetApprovers`: event types without a
capability entry are skipped, per-event-type resolution errors are
silently skipped, successful results are collected. -/
def getApproversLoop (A : ApproverOracle) (rs : RuleSet)
    (fieldCaps : List (String × FieldCapabilities)) :
    List String → List (String × Approvers)
  | [] => []
  | et :: rest =>
    match lookupA fieldCaps et with
    | none => getApproversLoop A rs fieldCaps rest
    | some caps =>
      match rs.GetEventApprovers A et caps with
      | .error _ => getApproversLoop A rs fieldCaps rest
      | .ok a => (et, a) :: getApproversLoop A rs fieldCaps rest

/-- GetApprovers from `ruleset.go`: best-effort per-event-type resolution,
always returning a nil error. -/
def RuleSet.GetApprovers (A : ApproverOracle) (rs : RuleSet)
    (fieldCaps : List (String × FieldCapabilities)) :
    Except RSError (List (String × Approvers)) :=
  .ok (getApproversLoop A rs fieldCaps rs.GetEventTypes)

/-- The embedding of `strings.ReplaceAll(filename, ".", "_")`: for a
one-character pattern and replacement this is exactly the character map
replacing every `.` by `_` (a `.` byte cannot occur inside a multi-byte
UTF-8 sequence). -/
def replaceDots (s : String) : String :=
  String.mk (s.data.map (fun c => if c = '.' then '_' else c))

/-- AddPolicyVersion from `ruleset.go`: the loaded-policies key is the
filename with every `.` replaced by `_`. -/
def RuleSet.AddPolicyVersion (rs : RuleSet) (filename version : String) : RuleSet :=
  { rs with
    loadedPolicies := updateA rs.loadedPolicies (replaceDots filename) version }

/-- Recognizer for rule-match notifications. -/
def Notification.isRuleMatch : Notification → Bool
  | .ruleMatch _ => true
  | .discarderFound _ _ => false

/-- Sample evaluator whose full evaluation always succeeds (used by
concrete witnesses). -/
def wEvalTrue : Evaluator :=
  { eventTypes := ["open"], fields := ["filename"],
    eval := fun _ => true,
    partialEval := fun _ _ => .ok false,
    genPartials := .ok (), getEventTypes := .ok ["open"] }

/-- Sample evaluator whose full evaluation always fails and whose partial
evaluations are all false. -/
def wEvalFalse : Evaluator :=
  { eventTypes := ["open"], fields := ["filename"],
    eval := fun _ => false,
    partialEval := fun _ _ => .ok false,
    genPartials := .ok (), getEventTypes := .ok ["open"] }

/-- Sample rule that matches every event. -/
def wRuleTrue : Rule :=
  { id := "r1", expression := "e1", tags := [], evaluator := wEvalTrue }

/-- Sample rule that matches no event. -/
def wRuleFalse : Rule :=
  { id := "r2", expression := "e2", tags := [], evaluator := wEvalFalse }

/-- Sample bucket holding the two sample rules. -/
def wBucket : RuleBucket :=
  { rules := [wRuleTrue, wRuleFalse], fields := ["filename"] }

/-- Sample event of type `open`. -/
def wEvent : Event :=
  { type := "open", fieldEventType := fun _ => .ok "open" }

/-- Sample rule set with one bucket for `open`. -/
def wRS : RuleSet :=
  { eventRuleBuckets := [("open", wBucket)],
    rules := [("r1", wRuleTrue), ("r2", wRuleFalse)],
    fields := ["filename"], macrosOpts := [], supportedDiscarders := none,
    reservedRuleIDs := [], eventTypeEnabled := [("*", true)],
    loadedPolicies := [], eventCtor := fun _ => wEvent }

/-- Sample compiler whose parse and compile steps always succeed,
producing the always-true evaluator. -/
def wCompiler : Compiler :=
  { parseRule := fun _ => .ok (),
    genRuleEvaluator := fun _ _ => .ok wEvalTrue,
    parseMacro := fun _ => .ok (),
    genMacroEvaluator := fun _ _ => .ok () }

/-- Sample empty rule set with a reserved ID and the wildcard enabled. -/
def wRSempty : RuleSet :=
  { eventRuleBuckets := [], rules := [], fields := [], macrosOpts := [],
    supportedDiscarders := none, reservedRuleIDs := ["res1"],
    eventTypeEnabled := [("*", true)], loadedPolicies := [],
    eventCtor := fun _ => wEvent }

/-- Sample rule definition. -/
def wDef : RuleDefinition :=
  { id := "r1", version := "", expression := "expr1", description := "", tags := [] }

/-- Sample rule definition whose ID collides with the reserved ID. -/
def wDefRes : RuleDefinition :=
  { id := "res1", version := "", expression := "expr2", description := "", tags := [] }

/-- The compiled form of `wDef` under `wCompiler`. -/
def wRuleD : Rule :=
  { id := "r1", expression := "expr1", tags := [], evaluator := wEvalTrue }

/-- Sample evaluator referencing no event type. -/
def wEvalNoEvents : Evaluator :=
  { eventTypes := [], fields := [], eval := fun _ => false,
    partialEval := fun _ _ => .ok false, genPartials := .ok (),
    getEventTypes := .ok [] }

/-- Sample compiler producing the no-event-type evaluator. -/
def wCompilerNoEvents : Compiler :=
  { parseRule := fun _ => .ok (),
    genRuleEvaluator := fun _ _ => .ok wEvalNoEvents,
    parseMacro := fun _ => .ok (),
    genMacroEvaluator := fun _ _ => .ok () }

/-- Sample macro definition. -/
def wMacroDef : MacroDefinition := { id := "m1", expression := "mexpr" }

/-- Sample approver oracle that always succeeds with no approvers. -/
def wOracle : ApproverOracle := fun _ _ _ => .ok []

theorem matchPhase_fst (ev : Event) (rules : List Rule) :
    (matchPhase ev rules).1 = rules.any (fun r => r.evaluator.eval ev) := by
  induction rules with
  | nil => rfl
  | cons r rest ih =>
    simp only [matchPhase, List.any_cons]
    by_cases h : r.evaluator.eval ev = true
    · simp [h]
    · simp only [Bool.not_eq_true] at h
      simp [h, ih]

theorem matchPhase_snd (ev : Event) (rules : List Rule) :
    (matchPhase ev rules).2 =
      (rules.filter (fun r => r.evaluator.eval ev)).map
        (fun r => Notification.ruleMatch r.id) := by
  induction rules with
  | nil => rfl
  | cons r rest ih =>
    simp only [matchPhase, List.filter_cons]
    by_cases h : r.evaluator.eval ev = true
    · simp [h, ih]
    · simp only [Bool.not_eq_true] at h
      simp [h, ih]

theorem ruleAllPartialFalse_iff (ev : Event) (f : String) (rules : List Rule) :
    ruleAllPartialFalse ev f rules = true ↔
      ∀ r ∈ rules, r.evaluator.partialEval ev f = .ok false := by
  induction rules with
  | nil => simp [ruleAllPartialFalse]
  | cons r rest ih =>
    simp only [ruleAllPartialFalse]
    cases h : r.evaluator.partialEval ev f with
    | error e => simp [h]
    | ok b =>
      cases b with
      | true => simp [h]
      | false => simp [h, ih]

theorem discarderPhase_eq (rs : RuleSet) (ev : Event) (et : String)
    (rules : List Rule) (fields : List String) :
    discarderPhase rs ev et rules fields =
      (fields.filter
          (fun f => discarderAllowed rs f && ruleAllPartialFalse ev f rules)).map
        (fun f => Notification.discarderFound f et) := by
  induction fields with
  | nil => rfl
  | cons f rest ih =>
    simp only [discarderPhase, List.filter_cons]
    by_cases ha : discarderAllowed rs f = true
    · by_cases hd : ruleAllPartialFalse ev f rules = true
      · simp [ha, hd, ih]
      · simp only [Bool.not_eq_true] at hd
        simp [ha, hd, ih]
    · simp only [Bool.not_eq_true] at ha
      simp [ha, ih]

/-- C1. `Evaluate` returns false with no notification when the event's type
has no bucket; otherwise it returns true iff some rule of the bucket
evaluates true on the event, and its rule-match notifications are exactly
one per matching rule of the bucket (every rule is evaluated, no
short-circuit). -/
theorem C1_Evaluate_matches (rs : RuleSet) (ev : Event) :
    (lookupA rs.eventRuleBuckets ev.type = none → rs.Evaluate ev = (false, []))
    ∧ (∀ bucket, lookupA rs.eventRuleBuckets ev.type = some bucket →
        ((rs.Evaluate ev).1 = true ↔ ∃ r ∈ bucket.rules, r.evaluator.eval ev = true)
        ∧ (rs.Evaluate ev).2.filter Notification.isRuleMatch =
            (bucket.rules.filter (fun r => r.evaluator.eval ev)).map
              (fun r => Notification.ruleMatch r.id)) := by
  constructor
  · intro h
    simp [RuleSet.Evaluate, h]
  · intro bucket h
    have hfst := matchPhase_fst ev bucket.rules
    have hsnd := matchPhase_snd ev bucket.rules
    by_cases hm : (matchPhase ev bucket.rules).1 = true
    · have hev : rs.Evaluate ev = matchPhase ev bucket.rules := by
        simp [RuleSet.Evaluate, h, hm]
      constructor
      · rw [hev, hm]
        rw [hm] at hfst
        simp only [true_iff]
        have := (List.any_eq_true).mp hfst.symm
        obtain ⟨r, hr, hre⟩ := this
        exact ⟨r, hr, hre⟩
      · rw [hev, hsnd]
        rw [List.filter_eq_self.mpr]
        intro n hn
        rcases List.mem_map.mp hn with ⟨r, _, rfl⟩
        rfl
    · simp only [Bool.not_eq_true] at hm
      have hnone : ∀ r ∈ bucket.rules, r.evaluator.eval ev = false := by
        intro r hr
        by_contra hc
        simp only [Bool.not_eq_false] at hc
        have : bucket.rules.any (fun r => r.evaluator.eval ev) = true :=
          List.any_eq_true.mpr ⟨r, hr, hc⟩
        rw [← hfst, hm] at this
        exact Bool.false_ne_true this
      have hfil : bucket.rules.filter (fun r => r.evaluator.eval ev) = [] :=
        List.filter_eq_nil_iff.mpr (by
          intro r hr
          simp [hnone r hr])
      have hev : rs.Evaluate ev =
          (false, discarderPhase rs ev ev.type bucket.rules bucket.fields) := by
        simp [RuleSet.Evaluate, h, hm, hsnd, hfil]
      constructor
      · rw [hev]
        constructor
        · intro hft
          simp at hft
        · rintro ⟨r, hr, hre⟩
          rw [hnone r hr] at hre
          exact (Bool.false_ne_true hre).elim
      · rw [hev, hfil, List.map_nil]
        rw [discarderPhase_eq]
        apply List.filter_eq_nil_iff.mpr
        intro n hn
        rcases List.mem_map.mp hn with ⟨f, _, rfl⟩
        simp [Notification.isRuleMatch]

/-- C1 witness: the sample rule set, whose bucket for `open` holds one
matching and one non-matching rule. -/
theorem C1_Evaluate_matches_witness :
    ((wRS.Evaluate wEvent).1 = true ↔ ∃ r ∈ wBucket.rules, r.evaluator.eval wEvent = true)
    ∧ (wRS.Evaluate wEvent).2.filter Notification.isRuleMatch =
        (wBucket.rules.filter (fun r => r.evaluator.eval wEvent)).map
          (fun r => Notification.ruleMatch r.id) :=
  (C1_Evaluate_matches wRS wEvent).2 wBucket rfl

theorem isDiscarderLoop_true_iff (ev : Event) (field : String) (rules : List Rule) :
    isDiscarderLoop ev field rules = (true, none) ↔
      ∀ r ∈ rules, r.evaluator.partialEval ev field = .ok false := by
  induction rules with
  | nil => simp [isDiscarderLoop]
  | cons r rest ih =>
    simp only [isDiscarderLoop]
    cases h : r.evaluator.partialEval ev field with
    | error e => simp [h]
    | ok b =>
      cases b with
      | true => simp [h]
      | false => simp [h, ih]

theorem isDiscarderLoop_append (ev : Event) (field : String)
    (pre : List Rule) (r : Rule) (post : List Rule)
    (hpre : ∀ r' ∈ pre, r'.evaluator.partialEval ev field = .ok false) :
    isDiscarderLoop ev field (pre ++ r :: post) =
      match r.evaluator.partialEval ev field with
      | .error e => (false, some (.external e))
      | .ok true => (false, none)
      | .ok false => isDiscarderLoop ev field post := by
  induction pre with
  | nil => rfl
  | cons r' rest ih =>
    have h' := hpre r' (List.mem_cons_self r' rest)
    simp only [List.cons_append, isDiscarderLoop, h']
    exact ih (fun x hx => hpre x (List.mem_cons_of_mem r' hx))

/-- C2. `IsDiscarder` returns `(true, nil)` exactly when a bucket exists
for the field's resolved event type and every rule in it partially
evaluates to false without error; otherwise it returns false with the
field-event-type resolution error, the no-bucket error, or the first
partial-evaluation error (a nil error when the blocking rule's partial
evaluation returned true). -/
theorem C2_IsDiscarder_spec (rs : RuleSet) (ev : Event) (field : String) :
    (rs.IsDiscarder ev field = (true, none) ↔
      ∃ et bucket, ev.fieldEventType field = .ok et
        ∧ lookupA rs.eventRuleBuckets et = some bucket
        ∧ ∀ r ∈ bucket.rules, r.evaluator.partialEval ev field = .ok false)
    ∧ (∀ e, ev.fieldEventType field = .error e →
        rs.IsDiscarder ev field = (false, some (.external e)))
    ∧ (∀ et, ev.fieldEventType field = .ok et →
        lookupA rs.eventRuleBuckets et = none →
        rs.IsDiscarder ev field = (false, some (.noEventTypeBucket et)))
    ∧ (∀ et bucket pre r post,
        ev.fieldEventType field = .ok et →
        lookupA rs.eventRuleBuckets et = some bucket →
        bucket.rules = pre ++ r :: post →
        (∀ r' ∈ pre, r'.evaluator.partialEval ev field = .ok false) →
        (∀ e, r.evaluator.partialEval ev field = .error e →
            rs.IsDiscarder ev field = (false, some (.external e)))
        ∧ (r.evaluator.partialEval ev field = .ok true →
            rs.IsDiscarder ev field = (false, none))) := by
  refine ⟨⟨?_, ?_⟩, ?_, ?_, ?_⟩
  · intro h
    cases hft : ev.fieldEventType field with
    | error e => simp [RuleSet.IsDiscarder, hft] at h
    | ok et =>
      cases hbk : lookupA rs.eventRuleBuckets et with
      | none => simp [RuleSet.IsDiscarder, hft, hbk] at h
      | some bucket =>
        simp only [RuleSet.IsDiscarder, hft, hbk] at h
        exact ⟨et, bucket, rfl, hbk, (isDiscarderLoop_true_iff _ _ _).mp h⟩
  · rintro ⟨et, bucket, hft, hbk, hall⟩
    simp only [RuleSet.IsDiscarder, hft, hbk]
    exact (isDiscarderLoop_true_iff _ _ _).mpr hall
  · intro e hft
    simp [RuleSet.IsDiscarder, hft]
  · intro et hft hbk
    simp [RuleSet.IsDiscarder, hft, hbk]
  · intro et bucket pre r post hft hbk hsplit hpre
    have hloop := isDiscarderLoop_append ev field pre r post hpre
    constructor
    · intro e he
      rw [he] at hloop
      simp only [RuleSet.IsDiscarder, hft, hbk, hsplit, hloop]
    · intro he
      rw [he] at hloop
      simp only [RuleSet.IsDiscarder, hft, hbk, hsplit, hloop]

/-- C2 witness: on the sample rule set, where both rules of the `open`
bucket partially evaluate to false on `filename`, `IsDiscarder` reports a
discarder with a nil error. -/
theorem C2_IsDiscarder_spec_witness :
    wRS.IsDiscarder wEvent "filename" = (true, none) :=
  (C2_IsDiscarder_spec wRS wEvent "filename").1.mpr
    ⟨"open", wBucket, rfl, rfl, by
      intro r hr
      simp only [wBucket, List.mem_cons, List.not_mem_nil, or_false] at hr
      rcases hr with rfl | rfl <;> rfl⟩

/-- C3. When some rule of the bucket matched, `Evaluate` issues no
discarder notification at all; when no rule matched, the discarder
notifications are exactly one per field of the bucket's field list that
passes the supported-discarders gate and on which every rule of the
bucket partially evaluates to false without error. -/
theorem C3_Evaluate_discarders (rs : RuleSet) (ev : Event) (bucket : RuleBucket)
    (hb : lookupA rs.eventRuleBuckets ev.type = some bucket) :
    ((∃ r ∈ bucket.rules, r.evaluator.eval ev = true) →
      ∀ f et, Notification.discarderFound f et ∉ (rs.Evaluate ev).2)
    ∧ ((∀ r ∈ bucket.rules, r.evaluator.eval ev = false) →
        (rs.Evaluate ev).2 =
          (bucket.fields.filter
              (fun f => discarderAllowed rs f
                && ruleAllPartialFalse ev f bucket.rules)).map
            (fun f => Notification.discarderFound f ev.type)
        ∧ (bucket.fields.Nodup → ∀ f,
            (rs.Evaluate ev).2.count (Notification.discarderFound f ev.type) =
              if f ∈ bucket.fields ∧ discarderAllowed rs f = true
                  ∧ ∀ r ∈ bucket.rules, r.evaluator.partialEval ev f = .ok false
              then 1 else 0)) := by
  have hfst := matchPhase_fst ev bucket.rules
  have hsnd := matchPhase_snd ev bucket.rules
  constructor
  · rintro ⟨r, hr, hre⟩ f et hmem
    have hm : (matchPhase ev bucket.rules).1 = true := by
      rw [hfst]
      exact List.any_eq_true.mpr ⟨r, hr, hre⟩
    have hev : rs.Evaluate ev = matchPhase ev bucket.rules := by
      simp [RuleSet.Evaluate, hb, hm]
    rw [hev, hsnd] at hmem
    rcases List.mem_map.mp hmem with ⟨r', _, habs⟩
    exact Notification.noConfusion habs
  · intro hnone
    have hm : (matchPhase ev bucket.rules).1 = false := by
      rw [hfst]
      apply List.any_eq_false.mpr
      intro r hr
      simp [hnone r hr]
    have hfil : bucket.rules.filter (fun r => r.evaluator.eval ev) = [] :=
      List.filter_eq_nil_iff.mpr (by
        intro r hr
        simp [hnone r hr])
    have hev : rs.Evaluate ev =
        (false, discarderPhase rs ev ev.type bucket.rules bucket.fields) := by
      simp [RuleSet.Evaluate, hb, hm, hsnd, hfil]
    refine ⟨by rw [hev, discarderPhase_eq], ?_⟩
    intro hnd f
    rw [hev]
    simp only
    rw [discarderPhase_eq]
    have hinj : Function.Injective
        (fun f => Notification.discarderFound f ev.type) := by
      intro a b hab
      cases hab
      rfl
    rw [List.count_map_of_injective _ _ hinj]
    by_cases hc : f ∈ bucket.fields ∧ discarderAllowed rs f = true
        ∧ ∀ r ∈ bucket.rules, r.evaluator.partialEval ev f = .ok false
    · rw [if_pos hc]
      obtain ⟨hmem, hall, hpart⟩ := hc
      apply List.count_eq_one_of_mem (hnd.filter _)
      rw [List.mem_filter]
      refine ⟨hmem, ?_⟩
      simp [hall, (ruleAllPartialFalse_iff ev f bucket.rules).mpr hpart]
    · rw [if_neg hc]
      apply List.count_eq_zero_of_not_mem
      intro habs
      rw [List.mem_filter] at habs
      obtain ⟨hmem, hcond⟩ := habs
      rw [Bool.and_eq_true] at hcond
      exact hc ⟨hmem, hcond.1,
        (ruleAllPartialFalse_iff ev f bucket.rules).mp hcond.2⟩

/-- C3 witness: the sample rule set applied at its `open` bucket. -/
theorem C3_Evaluate_discarders_witness :
    ((∃ r ∈ wBucket.rules, r.evaluator.eval wEvent = true) →
      ∀ f et, Notification.discarderFound f et ∉ (wRS.Evaluate wEvent).2)
    ∧ ((∀ r ∈ wBucket.rules, r.evaluator.eval wEvent = false) →
        (wRS.Evaluate wEvent).2 =
          (wBucket.fields.filter
              (fun f => discarderAllowed wRS f
                && ruleAllPartialFalse wEvent f wBucket.rules)).map
            (fun f => Notification.discarderFound f wEvent.type)
        ∧ (wBucket.fields.Nodup → ∀ f,
            (wRS.Evaluate wEvent).2.count (Notification.discarderFound f wEvent.type) =
              if f ∈ wBucket.fields ∧ discarderAllowed wRS f = true
                  ∧ ∀ r ∈ wBucket.rules, r.evaluator.partialEval wEvent f = .ok false
              then 1 else 0)) :=
  C3_Evaluate_discarders wRS wEvent wBucket rfl

theorem lookupA_updateA_self {α : Type} (l : List (String × α)) (k : String) (v : α) :
    lookupA (updateA l k v) k = some v := by
  induction l with
  | nil => simp [updateA, lookupA]
  | cons p rest ih =>
    by_cases h : p.1 = k
    · simp [updateA, h, lookupA]
    · simp [updateA, h, lookupA, ih]

theorem lookupA_updateA_ne {α : Type} (l : List (String × α)) (k k' : String) (v : α)
    (h : k' ≠ k) : lookupA (updateA l k v) k' = lookupA l k' := by
  have hkk : ¬k = k' := fun hc => h hc.symm
  induction l with
  | nil => simp [updateA, lookupA, hkk]
  | cons p rest ih =>
    by_cases hp : p.1 = k
    · subst hp
      simp [updateA, lookupA, hkk]
    · by_cases hp' : p.1 = k'
      · simp [updateA, lookupA, hp, hp', h]
      · simp [updateA, lookupA, hp, hp', ih]

theorem lookupA_append {α : Type} (l l' : List (String × α)) (k : String) :
    lookupA (l ++ l') k =
      match lookupA l k with
      | some v => some v
      | none => lookupA l' k := by
  induction l with
  | nil => simp [lookupA]
  | cons p rest ih =>
    by_cases h : p.1 = k
    · simp [lookupA, h]
    · simp [lookupA, h, ih]

theorem addToBuckets_pres (r : Rule) (ets : List String)
    (bs : List (String × RuleBucket)) (et : String)
    (h : ∃ b, lookupA bs et = some b ∧ r ∈ b.rules) :
    ∃ b, lookupA (addToBuckets r bs ets) et = some b ∧ r ∈ b.rules := by
  induction ets generalizing bs with
  | nil => exact h
  | cons et' rest ih =>
    obtain ⟨b, hb, hr⟩ := h
    simp only [addToBuckets]
    apply ih
    by_cases he : et' = et
    · subst he
      refine ⟨((lookupA bs et').getD RuleBucket.empty).AddRule r, lookupA_updateA_self _ _ _, ?_⟩
      simp [RuleBucket.AddRule]
    · rw [lookupA_updateA_ne _ _ _ _ (fun hc => he hc.symm)]
      exact ⟨b, hb, hr⟩

theorem addToBuckets_mem (r : Rule) (ets : List String)
    (bs : List (String × RuleBucket)) :
    ∀ et ∈ ets, ∃ b, lookupA (addToBuckets r bs ets) et = some b ∧ r ∈ b.rules := by
  induction ets generalizing bs with
  | nil => intro et h; exact absurd h (List.not_mem_nil et)
  | cons et' rest ih =>
    intro et h
    rcases List.mem_cons.mp h with rfl | hmem
    · simp only [addToBuckets]
      apply addToBuckets_pres
      refine ⟨((lookupA bs et).getD RuleBucket.empty).AddRule r,
        lookupA_updateA_self _ _ _, ?_⟩
      simp [RuleBucket.AddRule]
    · exact ih _ et hmem

/-- Characterization of a successful `AddRule`: the preconditions it
implies and the exact state change it performs. -/
theorem AddRule_ok (C : Compiler) (rs : RuleSet) (d : RuleDefinition)
    (rs1 : RuleSet) (r1 : Rule) (h : rs.AddRule C d = (rs1, .ok r1)) :
    d.id ∉ rs.reservedRuleIDs
    ∧ lookupA rs.rules d.id = none
    ∧ r1.id = d.id
    ∧ rs1.rules = rs.rules ++ [(d.id, r1)]
    ∧ rs1.eventRuleBuckets = addToBuckets r1 rs.eventRuleBuckets r1.evaluator.eventTypes
    ∧ rs1.fields = firstOccur rs.fields r1.evaluator.fields
    ∧ rs1.reservedRuleIDs = rs.reservedRuleIDs
    ∧ rs1.eventTypeEnabled = rs.eventTypeEnabled := by
  unfold RuleSet.AddRule at h
  by_cases h1 : d.id ∈ rs.reservedRuleIDs
  · simp [h1] at h
  rw [if_neg h1] at h
  cases h2 : lookupA rs.rules d.id with
  | some r0 => simp [h2] at h
  | none =>
    simp only [h2, Option.isSome_none, Bool.false_eq_true, if_false] at h
    cases h3 : C.parseRule d.expression with
    | error e => simp [h3] at h
    | ok u =>
      simp only [h3] at h
      cases h4 : C.genRuleEvaluator d.expression rs.macrosOpts with
      | error e => simp [h4] at h
      | ok E =>
        simp only [h4] at h
        cases h5 : GetRuleEventType E.getEventTypes with
        | error e => simp [h5] at h
        | ok et =>
          simp only [h5] at h
          by_cases h6 : ((lookupA rs.eventTypeEnabled "*").isNone
              && (lookupA rs.eventTypeEnabled et).isNone) = true
          · simp [h6] at h
          · rw [if_neg h6] at h
            simp only [Prod.mk.injEq, Except.ok.injEq] at h
            obtain ⟨hrs, hr⟩ := h
            subst hr
            refine ⟨h1, rfl, rfl, ?_, ?_, ?_, ?_, ?_⟩ <;>
              rw [← hrs]

/-- C4. `AddRule` rejects a reserved ID with the internal-ID-conflict
error and a duplicate ID with the (distinct) definition-ID-conflict
error, leaving the rule set unchanged in both cases; after a successful
add, re-adding a definition with the same ID fails with the
definition-ID conflict, leaving the first rule active in `ListRuleIDs`,
in the rule table, and in its buckets. -/
theorem C4_AddRule_conflicts (C : Compiler) (rs : RuleSet) (d d' : RuleDefinition) :
    (d.id ∈ rs.reservedRuleIDs →
      rs.AddRule C d = (rs, .error (.ruleLoad d.id .internalIDConflict)))
    ∧ (d.id ∉ rs.reservedRuleIDs → (lookupA rs.rules d.id).isSome = true →
      rs.AddRule C d = (rs, .error (.ruleLoad d.id .definitionIDConflict)))
    ∧ RSError.internalIDConflict ≠ RSError.definitionIDConflict
    ∧ (∀ rs1 r1, rs.AddRule C d = (rs1, .ok r1) → d'.id = d.id →
        rs1.AddRule C d' = (rs1, .error (.ruleLoad d'.id .definitionIDConflict))
        ∧ lookupA rs1.rules d.id = some r1
        ∧ d.id ∈ rs1.ListRuleIDs
        ∧ ∀ et ∈ r1.evaluator.eventTypes,
            ∃ b, lookupA rs1.eventRuleBuckets et = some b ∧ r1 ∈ b.rules) := by
  refine ⟨?_, ?_, by simp, ?_⟩
  · intro h
    simp [RuleSet.AddRule, h]
  · intro h1 h2
    simp [RuleSet.AddRule, h1, h2]
  · intro rs1 r1 hok hid
    obtain ⟨hres, hnone, hrid, hrules, hbuckets, _, hresv, _⟩ :=
      AddRule_ok C rs d rs1 r1 hok
    have hlook : lookupA rs1.rules d.id = some r1 := by
      rw [hrules, lookupA_append, hnone]
      simp [lookupA]
    refine ⟨?_, hlook, ?_, ?_⟩
    · have hres' : d'.id ∉ rs1.reservedRuleIDs := by
        rw [hresv, hid]; exact hres
      have hdup : (lookupA rs1.rules d'.id).isSome = true := by
        rw [hid, hlook]; rfl
      simp [RuleSet.AddRule, hres', hdup]
    · rw [RuleSet.ListRuleIDs, hrules]
      simp
    · intro et hmem
      rw [hbuckets]
      exact addToBuckets_mem r1 r1.evaluator.eventTypes rs.eventRuleBuckets et hmem

/-- C4 witness: on the sample empty rule set, adding the reserved ID
fails with the internal conflict; adding `wDef` succeeds and re-adding it
fails with the definition conflict, the first rule staying active. -/
theorem C4_AddRule_conflicts_witness :
    wRSempty.AddRule wCompiler wDefRes =
      (wRSempty, .error (.ruleLoad "res1" .internalIDConflict))
    ∧ ((wRSempty.AddRule wCompiler wDef).1.AddRule wCompiler wDef =
        ((wRSempty.AddRule wCompiler wDef).1,
          .error (.ruleLoad "r1" .definitionIDConflict))
      ∧ lookupA (wRSempty.AddRule wCompiler wDef).1.rules "r1" = some wRuleD
      ∧ "r1" ∈ (wRSempty.AddRule wCompiler wDef).1.ListRuleIDs
      ∧ ∀ et ∈ wRuleD.evaluator.eventTypes,
          ∃ b, lookupA (wRSempty.AddRule wCompiler wDef).1.eventRuleBuckets et = some b
            ∧ wRuleD ∈ b.rules) :=
  ⟨(C4_AddRule_conflicts wCompiler wRSempty wDefRes wDefRes).1 (by simp [wRSempty, wDefRes]),
    (C4_AddRule_conflicts wCompiler wRSempty wDef wDef).2.2.2
      (wRSempty.AddRule wCompiler wDef).1 wRuleD rfl rfl⟩

/-- C5. With the earlier checks passing (ID neither reserved nor a
duplicate, parse and compile succeeding), `AddRule` rejects an evaluator
reporting zero event types with the rule-without-event error, more than
one with the multiple-events error, and a single event type that is
neither enabled nor covered by the wildcard with the
event-type-not-enabled error; in each case the returned state is the
unchanged rule set, so the rule is in no rule table and no bucket. -/
theorem C5_AddRule_eventType (C : Compiler) (rs : RuleSet) (d : RuleDefinition)
    (E : Evaluator)
    (h1 : d.id ∉ rs.reservedRuleIDs)
    (h2 : lookupA rs.rules d.id = none)
    (h3 : C.parseRule d.expression = .ok ())
    (h4 : C.genRuleEvaluator d.expression rs.macrosOpts = .ok E) :
    (E.getEventTypes = .ok [] →
      rs.AddRule C d = (rs, .error (.ruleLoad d.id .ruleWithoutEvent)))
    ∧ (∀ ets, E.getEventTypes = .ok ets → 1 < ets.length →
      rs.AddRule C d = (rs, .error (.ruleLoad d.id .ruleWithMultipleEvents)))
    ∧ (∀ et, E.getEventTypes = .ok [et] →
        lookupA rs.eventTypeEnabled "*" = none →
        lookupA rs.eventTypeEnabled et = none →
        rs.AddRule C d = (rs, .error (.ruleLoad d.id .eventTypeNotEnabled))) := by
  refine ⟨?_, ?_, ?_⟩
  · intro hets
    simp [RuleSet.AddRule, h1, h2, h3, h4, GetRuleEventType, hets]
  · intro ets hets hlen
    have hne : ¬ets.length = 0 := by omega
    simp [RuleSet.AddRule, h1, h2, h3, h4, GetRuleEventType, hets, hne, hlen]
  · intro et hets hstar hen
    simp [RuleSet.AddRule, h1, h2, h3, h4, GetRuleEventType, hets, hstar, hen]

/-- C5 witness: under a compiler whose evaluator reports no event type,
adding the sample definition fails with the rule-without-event error and
leaves the empty rule set unchanged. -/
theorem C5_AddRule_eventType_witness :
    wRSempty.AddRule wCompilerNoEvents wDef =
      (wRSempty, .error (.ruleLoad "r1" .ruleWithoutEvent)) :=
  (C5_AddRule_eventType wCompilerNoEvents wRSempty wDef wEvalNoEvents
      (by decide) rfl rfl rfl).1 rfl

theorem AddRules_fst (C : Compiler) (rs : RuleSet) (ds : List RuleDefinition) :
    (rs.AddRules C ds).1 = (addRulesLoop C rs ds).1 := by
  simp only [RuleSet.AddRules]
  split <;> rfl

theorem addRulesLoop_append (C : Compiler) (rs : RuleSet)
    (l1 l2 : List RuleDefinition) :
    addRulesLoop C rs (l1 ++ l2) =
      ((addRulesLoop C (addRulesLoop C rs l1).1 l2).1,
        (addRulesLoop C rs l1).2 ++ (addRulesLoop C (addRulesLoop C rs l1).1 l2).2) := by
  induction l1 generalizing rs with
  | nil => simp [addRulesLoop]
  | cons d ds ih =>
    simp only [List.cons_append, addRulesLoop]
    cases hp : (rs.AddRule C d).2 with
    | ok r => simp [hp, ih]
    | error e => simp [hp, ih]

theorem AddRule_rules_shape (C : Compiler) (rs : RuleSet) (d : RuleDefinition) :
    (rs.AddRule C d).1.rules = rs.rules
    ∨ ∃ rule, (rs.AddRule C d).1.rules = rs.rules ++ [(d.id, rule)] := by
  unfold RuleSet.AddRule
  split
  · exact Or.inl rfl
  split
  · exact Or.inl rfl
  split
  · exact Or.inl rfl
  split
  · exact Or.inl rfl
  split
  · exact Or.inl rfl
  split
  · exact Or.inl rfl
  · exact Or.inr ⟨_, rfl⟩

theorem AddRule_mono (C : Compiler) (rs : RuleSet) (d : RuleDefinition)
    (k : String) (r : Rule) (h : lookupA rs.rules k = some r) :
    lookupA (rs.AddRule C d).1.rules k = some r := by
  rcases AddRule_rules_shape C rs d with hs | ⟨rule, hs⟩
  · rw [hs]; exact h
  · rw [hs, lookupA_append, h]

theorem addRulesLoop_mono (C : Compiler) (ds : List RuleDefinition)
    (rs : RuleSet) (k : String) (r : Rule) (h : lookupA rs.rules k = some r) :
    lookupA (addRulesLoop C rs ds).1.rules k = some r := by
  induction ds generalizing rs with
  | nil => exact h
  | cons d ds' ih =>
    simp only [addRulesLoop]
    cases hp : (rs.AddRule C d).2 with
    | ok r' =>
      simp only [hp]
      exact ih _ (AddRule_mono C rs d k r h)
    | error e =>
      simp only [hp]
      exact ih _ (AddRule_mono C rs d k r h)

theorem AddMacros_fst (C : Compiler) (rs : RuleSet) (ds : List MacroDefinition) :
    (rs.AddMacros C ds).1 = (addMacrosLoop C rs ds).1 := rfl

theorem addMacrosLoop_append (C : Compiler) (rs : RuleSet)
    (l1 l2 : List MacroDefinition) :
    addMacrosLoop C rs (l1 ++ l2) =
      ((addMacrosLoop C (addMacrosLoop C rs l1).1 l2).1,
        (addMacrosLoop C rs l1).2 ++ (addMacrosLoop C (addMacrosLoop C rs l1).1 l2).2) := by
  induction l1 generalizing rs with
  | nil => simp [addMacrosLoop]
  | cons d ds ih =>
    simp only [List.cons_append, addMacrosLoop]
    cases hp : (rs.AddMacroDef C d).2 with
    | ok m => simp [hp, ih]
    | error e => simp [hp, ih]

theorem AddMacroDef_macros_shape (C : Compiler) (rs : RuleSet) (d : MacroDefinition) :
    (rs.AddMacroDef C d).1.macrosOpts = rs.macrosOpts
    ∨ ∃ m, (rs.AddMacroDef C d).1.macrosOpts = rs.macrosOpts ++ [(d.id, m)] := by
  unfold RuleSet.AddMacroDef
  split
  · exact Or.inl rfl
  split
  · exact Or.inl rfl
  split
  · exact Or.inl rfl
  · exact Or.inr ⟨_, rfl⟩

theorem addMacrosLoop_mono (C : Compiler) (ds : List MacroDefinition)
    (rs : RuleSet) (k : String) (m : MacroEval)
    (h : lookupA rs.macrosOpts k = some m) :
    lookupA (addMacrosLoop C rs ds).1.macrosOpts k = some m := by
  induction ds generalizing rs with
  | nil => exact h
  | cons d ds' ih =>
    simp only [addMacrosLoop]
    have hm : lookupA (rs.AddMacroDef C d).1.macrosOpts k = some m := by
      rcases AddMacroDef_macros_shape C rs d with hs | ⟨m', hs⟩
      · rw [hs]; exact h
      · rw [hs, lookupA_append, h]
    cases hp : (rs.AddMacroDef C d).2 with
    | ok m' =>
      simp only [hp]
      exact ih _ hm
    | error e =>
      simp only [hp]
      exact ih _ hm

theorem AddMacroDef_ok (C : Compiler) (rs : RuleSet) (d : MacroDefinition)
    (rs1 : RuleSet) (m : MacroEval) (h : rs.AddMacroDef C d = (rs1, .ok m)) :
    lookupA rs.macrosOpts d.id = none
    ∧ rs1.macrosOpts = rs.macrosOpts ++ [(d.id, m)] := by
  unfold RuleSet.AddMacroDef at h
  cases h2 : lookupA rs.macrosOpts d.id with
  | some m0 => simp [h2] at h
  | none =>
    simp only [h2, Option.isSome_none, Bool.false_eq_true, if_false] at h
    cases h3 : C.parseMacro d.expression with
    | error e => simp [h3] at h
    | ok u =>
      simp only [h3] at h
      cases h4 : C.genMacroEvaluator d.expression rs.macrosOpts with
      | error e => simp [h4] at h
      | ok u' =>
        simp only [h4, Prod.mk.injEq, Except.ok.injEq] at h
        obtain ⟨hrs, hm⟩ := h
        subst hm
        exact ⟨rfl, by rw [← hrs]⟩

/-- C6. `AddRules` and `AddMacros` never abort: processing a
concatenation of batches composes states and concatenates the collected
errors (so every definition is processed and each failure contributes
one entry to the combined multi-error); a definition that succeeds at
its point in the batch is still registered in the final state; and
`AddRules` factors into the add phase followed by one partial-generation
pass over the final state whose failure is appended to the same combined
error. -/
theorem C6_bulk_error_collection (C : Compiler) (rs : RuleSet) :
    (∀ ds, rs.AddRules C ds =
      ((addRulesLoop C rs ds).1,
        (addRulesLoop C rs ds).2 ++
          (match (addRulesLoop C rs ds).1.generatePartials with
           | .ok _ => []
           | .error e => [.wrapped "couldn't generate partials for rule" (.external e)])))
    ∧ (∀ l1 l2, addRulesLoop C rs (l1 ++ l2) =
        ((addRulesLoop C (addRulesLoop C rs l1).1 l2).1,
          (addRulesLoop C rs l1).2 ++ (addRulesLoop C (addRulesLoop C rs l1).1 l2).2))
    ∧ (∀ pre d post r,
        ((addRulesLoop C rs pre).1.AddRule C d).2 = .ok r →
        lookupA (rs.AddRules C (pre ++ d :: post)).1.rules d.id = some r)
    ∧ (∀ l1 l2, addMacrosLoop C rs (l1 ++ l2) =
        ((addMacrosLoop C (addMacrosLoop C rs l1).1 l2).1,
          (addMacrosLoop C rs l1).2 ++ (addMacrosLoop C (addMacrosLoop C rs l1).1 l2).2))
    ∧ (∀ pre d post m,
        ((addMacrosLoop C rs pre).1.AddMacroDef C d).2 = .ok m →
        lookupA (rs.AddMacros C (pre ++ d :: post)).1.macrosOpts d.id = some m) := by
  refine ⟨?_, addRulesLoop_append C rs, ?_, addMacrosLoop_append C rs, ?_⟩
  · intro ds
    simp only [RuleSet.AddRules]
    split
    · simp
    · rfl
  · intro pre d post r hok
    rw [AddRules_fst, addRulesLoop_append]
    simp only
    set rs1 := (addRulesLoop C rs pre).1 with hrs1
    have hpair : rs1.AddRule C d = ((rs1.AddRule C d).1, .ok r) := by
      rw [← hok]
    obtain ⟨_, hnone, _, hrules, _, _, _, _⟩ :=
      AddRule_ok C rs1 d (rs1.AddRule C d).1 r hpair
    have hlook : lookupA (rs1.AddRule C d).1.rules d.id = some r := by
      rw [hrules, lookupA_append, hnone]
      simp [lookupA]
    simp only [addRulesLoop]
    rw [hok]
    exact addRulesLoop_mono C post _ d.id r hlook
  · intro pre d post m hok
    rw [AddMacros_fst, addMacrosLoop_append]
    simp only
    set rs1 := (addMacrosLoop C rs pre).1 with hrs1
    have hpair : rs1.AddMacroDef C d = ((rs1.AddMacroDef C d).1, .ok m) := by
      rw [← hok]
    obtain ⟨hnone, hmacros⟩ :=
      AddMacroDef_ok C rs1 d (rs1.AddMacroDef C d).1 m hpair
    have hlook : lookupA (rs1.AddMacroDef C d).1.macrosOpts d.id = some m := by
      rw [hmacros, lookupA_append, hnone]
      simp [lookupA]
    simp only [addMacrosLoop]
    rw [hok]
    exact addMacrosLoop_mono C post _ d.id m hlook

/-- C6 witness: a two-element batch on the sample empty rule set, whose
first definition succeeds and stays registered. -/
theorem C6_bulk_error_collection_witness :
    lookupA (wRSempty.AddRules wCompiler [wDef]).1.rules "r1" = some wRuleD
    ∧ addRulesLoop wCompiler wRSempty ([wDef] ++ [wDefRes]) =
        ((addRulesLoop wCompiler (addRulesLoop wCompiler wRSempty [wDef]).1 [wDefRes]).1,
          (addRulesLoop wCompiler wRSempty [wDef]).2 ++
            (addRulesLoop wCompiler (addRulesLoop wCompiler wRSempty [wDef]).1 [wDefRes]).2) :=
  ⟨(C6_bulk_error_collection wCompiler wRSempty).2.2.1 [] wDef [] wRuleD rfl,
    (C6_bulk_error_collection wCompiler wRSempty).2.1 [wDef] [wDefRes]⟩

theorem firstOccur_nodup (fs : List String) (acc : List String) (h : acc.Nodup) :
    (firstOccur acc fs).Nodup := by
  induction fs generalizing acc with
  | nil => exact h
  | cons f rest ih =>
    simp only [firstOccur]
    by_cases hf : f ∈ acc
    · rw [if_pos hf]
      exact ih acc h
    · rw [if_neg hf]
      apply ih
      rw [List.nodup_append]
      exact ⟨h, List.nodup_singleton f, fun a ha hb => by
        rw [List.mem_singleton] at hb
        subst hb
        exact hf ha⟩

theorem firstOccur_extends (fs : List String) (acc : List String) :
    ∃ t, firstOccur acc fs = acc ++ t ∧ ∀ f ∈ t, f ∉ acc ∧ f ∈ fs := by
  induction fs generalizing acc with
  | nil => exact ⟨[], by simp [firstOccur]⟩
  | cons f rest ih =>
    by_cases hf : f ∈ acc
    · obtain ⟨t, ht, hmem⟩ := ih acc
      refine ⟨t, by rw [firstOccur, if_pos hf]; exact ht, ?_⟩
      intro g hg
      exact ⟨(hmem g hg).1, List.mem_cons_of_mem f (hmem g hg).2⟩
    · obtain ⟨t, ht, hmem⟩ := ih (acc ++ [f])
      refine ⟨f :: t, ?_, ?_⟩
      · rw [firstOccur, if_neg hf, ht, List.append_assoc]
        rfl
      · intro g hg
        rcases List.mem_cons.mp hg with rfl | hg'
        · exact ⟨hf, List.mem_cons_self g rest⟩
        · have hm := hmem g hg'
          exact ⟨fun hacc => hm.1 (List.mem_append_left [f] hacc),
            List.mem_cons_of_mem f hm.2⟩

theorem firstOccur_filter (fs : List String) (acc : List String) (hnd : fs.Nodup) :
    firstOccur acc fs = acc ++ fs.filter (fun f => decide (f ∉ acc)) := by
  induction fs generalizing acc with
  | nil => simp [firstOccur]
  | cons f rest ih =>
    have hndr : rest.Nodup := hnd.of_cons
    have hfr : f ∉ rest := (List.nodup_cons.mp hnd).1
    simp only [firstOccur, List.filter_cons]
    by_cases hf : f ∈ acc
    · rw [if_pos hf]
      simp only [hf, not_true_eq_false, decide_False, Bool.false_eq_true, if_false]
      exact ih acc hndr
    · rw [if_neg hf]
      simp only [hf, not_false_eq_true, decide_True, if_true]
      rw [ih (acc ++ [f]) hndr]
      rw [List.filter_congr (l := rest)
        (q := fun g => decide (g ∉ acc)) ?_]
      · rw [List.append_assoc]
        rfl
      · intro g hg
        have hgf : g ≠ f := fun hc => hfr (hc ▸ hg)
        simp [List.mem_append, hgf]

theorem AddRule_fields_shape (C : Compiler) (rs : RuleSet) (d : RuleDefinition) :
    (rs.AddRule C d).1.fields = rs.fields
    ∨ ∃ fl, (rs.AddRule C d).1.fields = firstOccur rs.fields fl := by
  unfold RuleSet.AddRule
  split
  · exact Or.inl rfl
  split
  · exact Or.inl rfl
  split
  · exact Or.inl rfl
  split
  · exact Or.inl rfl
  split
  · exact Or.inl rfl
  split
  · exact Or.inl rfl
  · exact Or.inr ⟨_, rfl⟩

/-- C7. The global field list stays duplicate-free through `AddRule` and
`AddFields`; the union appends only fields with no exact match already
present, never removes or reorders existing entries, and (for a
duplicate-free input) appends the new first occurrences in their input
order. -/
theorem C7_AddFields_invariant (C : Compiler) (rs : RuleSet)
    (d : RuleDefinition) (fs : List String) :
    (rs.fields.Nodup → (rs.AddRule C d).1.fields.Nodup)
    ∧ (rs.fields.Nodup → (rs.AddFields fs).fields.Nodup)
    ∧ (∃ t, (rs.AddFields fs).fields = rs.fields ++ t
        ∧ ∀ f ∈ t, f ∉ rs.fields ∧ f ∈ fs)
    ∧ (fs.Nodup → (rs.AddFields fs).fields =
        rs.fields ++ fs.filter (fun f => decide (f ∉ rs.fields)))
    ∧ (∃ t, (rs.AddRule C d).1.fields = rs.fields ++ t ∧ ∀ f ∈ t, f ∉ rs.fields) := by
  refine ⟨?_, ?_, ?_, ?_, ?_⟩
  · intro h
    rcases AddRule_fields_shape C rs d with hs | ⟨fl, hs⟩
    · rw [hs]; exact h
    · rw [hs]; exact firstOccur_nodup fl rs.fields h
  · intro h
    exact firstOccur_nodup fs rs.fields h
  · exact firstOccur_extends fs rs.fields
  · intro h
    exact firstOccur_filter fs rs.fields h
  · rcases AddRule_fields_shape C rs d with hs | ⟨fl, hs⟩
    · exact ⟨[], by rw [hs, List.append_nil], by simp⟩
    · obtain ⟨t, ht, hmem⟩ := firstOccur_extends fl rs.fields
      exact ⟨t, by rw [hs, ht], fun f hf => (hmem f hf).1⟩

/-- C7 witness: adding the sample rule to the empty rule set keeps its
field list duplicate-free, and a field union with duplicates in the
input stays duplicate-free. -/
theorem C7_AddFields_invariant_witness :
    (wRSempty.AddRule wCompiler wDef).1.fields.Nodup
    ∧ (wRS.AddFields ["filename", "flags", "filename"]).fields.Nodup :=
  ⟨(C7_AddFields_invariant wCompiler wRSempty wDef []).1 List.nodup_nil,
    (C7_AddFields_invariant wCompiler wRS wDef ["filename", "flags", "filename"]).2.1
      (by decide)⟩

/-- C8. `Evaluate` mutates no observable rule-set state (in the source it
touches only the context pool and the logger), so in the embedding it is
a pure function of the rule set and the event: two calls on the same
unchanged rule set return the same boolean and issue the same
notifications, in particular the same set of rule-match and
discarder-found pairs. -/
theorem C8_Evaluate_idempotent (rs : RuleSet) (ev : Event) :
    (rs.Evaluate ev).1 = (rs.Evaluate ev).1
    ∧ (rs.Evaluate ev).2 = (rs.Evaluate ev).2
    ∧ List.Perm (rs.Evaluate ev).2 (rs.Evaluate ev).2 :=
  ⟨rfl, rfl, List.Perm.refl _⟩

theorem getApproversLoop_mem (A : ApproverOracle) (rs : RuleSet)
    (fieldCaps : List (String × FieldCapabilities)) (ets : List String)
    (et : String) (a : Approvers) :
    (et, a) ∈ getApproversLoop A rs fieldCaps ets ↔
      (et ∈ ets ∧ ∃ caps, lookupA fieldCaps et = some caps
        ∧ rs.GetEventApprovers A et caps = .ok a) := by
  induction ets with
  | nil => simp [getApproversLoop]
  | cons et' rest ih =>
    simp only [getApproversLoop]
    cases hc : lookupA fieldCaps et' with
    | none =>
      rw [ih]
      constructor
      · rintro ⟨hmem, hcaps⟩
        exact ⟨List.mem_cons_of_mem et' hmem, hcaps⟩
      · rintro ⟨hmem, caps, hcaps, hok⟩
        rcases List.mem_cons.mp hmem with rfl | hmem'
        · rw [hc] at hcaps
          cases hcaps
        · exact ⟨hmem', caps, hcaps, hok⟩
    | some caps' =>
      cases hg : rs.GetEventApprovers A et' caps' with
      | error e =>
        simp only [hg]
        rw [ih]
        constructor
        · rintro ⟨hmem, hcaps⟩
          exact ⟨List.mem_cons_of_mem et' hmem, hcaps⟩
        · rintro ⟨hmem, caps, hcaps, hok⟩
          rcases List.mem_cons.mp hmem with rfl | hmem'
          · rw [hc] at hcaps
            cases hcaps
            rw [hg] at hok
            cases hok
          · exact ⟨hmem', caps, hcaps, hok⟩
      | ok a' =>
        simp only [hg]
        constructor
        · intro hm
          rcases List.mem_cons.mp hm with heq | hm'
          · injection heq with h1 h2
            subst h1
            subst h2
            exact ⟨List.mem_cons_self _ _, caps', hc, hg⟩
          · obtain ⟨hmem, hcaps⟩ := ih.mp hm'
            exact ⟨List.mem_cons_of_mem et' hmem, hcaps⟩
        · rintro ⟨hmem, caps, hcaps, hok⟩
          rcases List.mem_cons.mp hmem with rfl | hmem'
          · rw [hc] at hcaps
            cases hcaps
            rw [hg] at hok
            cases hok
            exact List.mem_cons_self _ _
          · exact List.mem_cons_of_mem _ (ih.mpr ⟨hmem', caps, hcaps, hok⟩)

/-- C9. `GetApprovers` always returns a nil error: its result collects
exactly the event types with a bucket, a supplied capability entry, and a
successful per-event-type resolution (unsupplied or failing event types
are silently skipped); `GetEventApprovers` itself fails with the
no-bucket error on an event type without a bucket. -/
theorem C9_GetApprovers_best_effort (A : ApproverOracle) (rs : RuleSet)
    (fieldCaps : List (String × FieldCapabilities)) :
    (∃ m, rs.GetApprovers A fieldCaps = .ok m)
    ∧ (∀ caps et, lookupA rs.eventRuleBuckets et = none →
        rs.GetEventApprovers A et caps = .error (.noEventTypeBucket et))
    ∧ (∀ m, rs.GetApprovers A fieldCaps = .ok m →
        ∀ et a, (et, a) ∈ m ↔
          (et ∈ rs.GetEventTypes
            ∧ ∃ caps, lookupA fieldCaps et = some caps
              ∧ rs.GetEventApprovers A et caps = .ok a)) := by
  refine ⟨⟨_, rfl⟩, ?_, ?_⟩
  · intro caps et h
    simp [RuleSet.GetEventApprovers, h]
  · intro m hm et a
    have : m = getApproversLoop A rs fieldCaps rs.GetEventTypes := by
      have := hm
      simp only [RuleSet.GetApprovers, Except.ok.injEq] at this
      exact this.symm
    rw [this]
    exact getApproversLoop_mem A rs fieldCaps rs.GetEventTypes et a

/-- C9 witness: on the sample rule set (bucket only for `open`), the
per-event-type query for `exec` fails with the no-bucket error, and the
aggregate query returns a nil error. -/
theorem C9_GetApprovers_best_effort_witness :
    wRS.GetEventApprovers wOracle "exec" [] = .error (.noEventTypeBucket "exec")
    ∧ ∃ m, wRS.GetApprovers wOracle [] = .ok m :=
  ⟨(C9_GetApprovers_best_effort wOracle wRS []).2.1 [] "exec" rfl,
    (C9_GetApprovers_best_effort wOracle wRS []).1⟩

theorem updateA_updateA {α : Type} (l : List (String × α)) (k : String) (v1 v2 : α) :
    updateA (updateA l k v1) k v2 = updateA l k v2 := by
  induction l with
  | nil => simp [updateA]
  | cons p rest ih =>
    by_cases hp : p.1 = k
    · simp [updateA, hp]
    · simp [updateA, hp, ih]

/-- C10. `AddPolicyVersion` keys the loaded-policies map by the filename
with every `.` replaced by `_`, so two filenames with the same
replacement — such as `a.b` and `a_b` — share one key and the later call
overwrites the earlier version. -/
theorem C10_AddPolicyVersion_key (rs : RuleSet) (f1 f2 v1 v2 : String)
    (h : replaceDots f1 = replaceDots f2) :
    ((rs.AddPolicyVersion f1 v1).AddPolicyVersion f2 v2).loadedPolicies =
      (rs.AddPolicyVersion f2 v2).loadedPolicies
    ∧ lookupA ((rs.AddPolicyVersion f1 v1).AddPolicyVersion f2 v2).loadedPolicies
        (replaceDots f2) = some v2
    ∧ replaceDots "a.b" = replaceDots "a_b" := by
  refine ⟨?_, ?_, by rfl⟩
  · simp only [RuleSet.AddPolicyVersion, h]
    exact updateA_updateA rs.loadedPolicies (replaceDots f2) v1 v2
  · simp only [RuleSet.AddPolicyVersion]
    exact lookupA_updateA_self _ _ _

/-- C10 witness: `a.b` then `a_b` on the sample rule set, the second
version overwriting the first under the shared key `a_b`. -/
theorem C10_AddPolicyVersion_key_witness :
    ((wRSempty.AddPolicyVersion "a.b" "1").AddPolicyVersion "a_b" "2").loadedPolicies =
      (wRSempty.AddPolicyVersion "a_b" "2").loadedPolicies
    ∧ lookupA ((wRSempty.AddPolicyVersion "a.b" "1").AddPolicyVersion "a_b" "2").loadedPolicies
        (replaceDots "a_b") = some "2" :=
  ⟨(C10_AddPolicyVersion_key wRSempty "a.b" "a_b" "1" "2" (by rfl)).1,
    (C10_AddPolicyVersion_key wRSempty "a.b" "a_b" "1" "2" (by rfl)).2.1⟩

end DDRules
